import Mathlib

/-!
Verification of the `python-react-ml` context summarizer and its
test-vector generator.

Shallow embedding of `src/context_summarizer.py` and
`src/scripts/generate_browser_tests.py`.

A Python string is modelled as `List Char` (Python slicing `s[:n]` is by
code points, matching `List.take n`).  A fragment handed to
`ContextSummarizer.summarize` is either `None` or some value whose
deterministic textual form `str(chunk)` we record directly, so a
fragment is `Option (List Char)`.  The outer argument `chunks` is either
`None` or an iterable, modelled as `Option (List Fragment)`.
-/

namespace PythonReactML

/-- A fragment: `none` models Python `None`; `some s` models any non-null
value whose textual form `str(chunk)` is `s`. -/
abbrev Fragment := Option (List Char)

/-- Per-fragment truncation bound, the literal `5000` in
`safe_chunks.append(text[:5000])`. -/
def FRAGMENT_LIMIT : Nat := 5000

/-- Final output cap, the literal `20000` in `return summary[:20000]`. -/
def SUMMARY_LIMIT : Nat := 20000

/-- The `for chunk in chunks` loop of `summarize`: skip `None` fragments
(`continue`), otherwise append `str(chunk)[:5000]` to `safe_chunks`,
preserving iteration order. -/
def safeChunks : List Fragment → List (List Char)
  | [] => []
  | none :: rest => safeChunks rest
  | some s :: rest => s.take FRAGMENT_LIMIT :: safeChunks rest

/-- `ContextSummarizer.summarize` from `src/context_summarizer.py`:
return `""` on `None` input, build `safe_chunks` by the loop, return `""`
when nothing survives, else join with `"\n"` and cap at 20000 chars. -/
def summarize : Option (List Fragment) → List Char
  | none => []
  | some chunks =>
      let safe := safeChunks chunks
      if safe = [] then []
      else (List.intercalate ['\n'] safe).take SUMMARY_LIMIT

/-- The explicit right-nested join `f1 ++ "\n" ++ f2 ++ ... ++ "\n" ++ fn`
used by the spec's join law, to be compared with `"\n".join`. -/
def joinNl : List (List Char) → List Char
  | [] => []
  | [f] => f
  | f :: g :: rest => f ++ '\n' :: joinNl (g :: rest)

/-- Effect-instrumented embedding of `summarize`: alongside the result it
returns the caller's sequence as left after the call and the list of I/O
events performed.  Every statement of the source reads `chunks` without
rebinding or mutating it and performs no I/O, so each branch threads the
input through unchanged with an empty event trace. -/
def summarizeEff (chunks : Option (List Fragment)) :
    List Char × Option (List Fragment) × List String :=
  match chunks with
  | none => ([], chunks, [])
  | some cs =>
      let safe := safeChunks cs
      if safe = [] then ([], chunks, [])
      else ((List.intercalate ['\n'] safe).take SUMMARY_LIMIT, chunks, [])

/-- One entry of the generated manifest:
`{"id": ..., "input": ..., "expected_output": ...}`. -/
structure TestVector where
  id : String
  input : List Fragment
  expected_output : List Char
  deriving Repr, DecidableEq

/-- `VECTOR_COUNT = 50` from `src/scripts/generate_browser_tests.py`. -/
def VECTOR_COUNT : Nat := 50

/-- `generate_vectors` from `src/scripts/generate_browser_tests.py`.
The successive results of `text_list_strategy.example()` are abstracted
as a stream `draw : Nat → List Fragment`; iteration `idx` draws
`draw idx`, computes `expected = ContextSummarizer.summarize(chunks)` and
appends `{id := "vector_" ++ idx, input, expected_output}`. -/
def generate_vectors (draw : Nat → List Fragment) (count : Nat) :
    List TestVector :=
  (List.range count).map fun idx =>
    { id := "vector_" ++ toString idx
      input := draw idx
      expected_output := summarize (some (draw idx)) }

/-- Default vector used with `List.getD` when indexing generated lists. -/
def defaultVector : TestVector :=
  { id := "", input := [], expected_output := [] }

/-! ### Helper lemmas -/

theorem intercalate_nl_eq_joinNl (fs : List (List Char)) :
    List.intercalate ['\n'] fs = joinNl fs := by
  induction fs with
  | nil => rfl
  | cons f rest ih =>
      cases rest with
      | nil => simp [List.intercalate, List.intersperse, joinNl]
      | cons g t =>
          simp only [List.intercalate, List.intersperse, List.flatten] at ih ⊢
          simp [joinNl, ih]

theorem safeChunks_map_some (fs : List (List Char))
    (h : ∀ f ∈ fs, f.length ≤ FRAGMENT_LIMIT) :
    safeChunks (fs.map some) = fs := by
  induction fs with
  | nil => rfl
  | cons f rest ih =>
      simp only [List.map_cons, safeChunks]
      rw [List.take_of_length_le (h f (by simp)), ih]
      intro g hg
      exact h g (by simp [hg])

theorem safeChunks_length_filter (cs : List Fragment) :
    (safeChunks cs).length = (cs.filter fun c => c.isSome).length := by
  induction cs with
  | nil => rfl
  | cons c rest ih =>
      cases c with
      | none => simpa [safeChunks, List.filter] using ih
      | some s => simpa [safeChunks, List.filter] using ih

theorem safeChunks_append (xs ys : List Fragment) :
    safeChunks (xs ++ ys) = safeChunks xs ++ safeChunks ys := by
  induction xs with
  | nil => rfl
  | cons c rest ih =>
      cases c with
      | none => simpa [safeChunks] using ih
      | some s => simp [safeChunks, ih]

theorem summarize_some_of_ne (cs : List Fragment) (h : ¬ safeChunks cs = []) :
    summarize (some cs) =
      (List.intercalate ['\n'] (safeChunks cs)).take SUMMARY_LIMIT := by
  simp [summarize, h]

theorem summarize_some_of_nil (cs : List Fragment) (h : safeChunks cs = []) :
    summarize (some cs) = [] := by
  simp [summarize, h]

theorem summarize_single_replicate (n : Nat) (hn : FRAGMENT_LIMIT ≤ n) :
    summarize (some [some (List.replicate n 'a')]) =
      List.replicate FRAGMENT_LIMIT 'a' := by
  have h1 : safeChunks [some (List.replicate n 'a')] =
      [List.replicate FRAGMENT_LIMIT 'a'] := by
    show [(List.replicate n 'a').take FRAGMENT_LIMIT] = _
    rw [List.take_replicate, Nat.min_eq_left hn]
  have h2 : ¬ safeChunks [some (List.replicate n 'a')] = [] := by
    rw [h1]; simp
  rw [summarize_some_of_ne _ h2, h1, intercalate_nl_eq_joinNl]
  show (List.replicate FRAGMENT_LIMIT 'a').take SUMMARY_LIMIT = _
  rw [List.take_replicate, Nat.min_eq_right]
  show FRAGMENT_LIMIT ≤ SUMMARY_LIMIT
  norm_num [FRAGMENT_LIMIT, SUMMARY_LIMIT]

/-! ### Claims -/

/-- C1: for all inputs (null, the empty sequence, a sequence containing
nulls, non-text elements — absorbed into the fragment's textual form —
or a 10,000-character fragment), `summarize` returns a string and never
raises: the embedding is a total function into strings, and on the
10,000-character fragment it returns the 5,000-character prefix. -/
theorem summarize_total (input : Option (List Fragment)) :
    (∃ out : List Char, summarize input = out) ∧
    summarize (some [some (List.replicate 10000 'a')]) =
      List.replicate 5000 'a' := by
  refine ⟨⟨_, rfl⟩, ?_⟩
  show _ = List.replicate FRAGMENT_LIMIT 'a'
  exact summarize_single_replicate 10000 (by norm_num [FRAGMENT_LIMIT])

/-- C2: for every input, the length of `summarize chunks` is at most
20,000 characters. -/
theorem summarize_length_le (chunks : Option (List Fragment)) :
    (summarize chunks).length ≤ SUMMARY_LIMIT := by
  cases chunks with
  | none => simp [summarize, SUMMARY_LIMIT]
  | some cs =>
      by_cases h : safeChunks cs = []
      · simp [summarize_some_of_nil cs h, SUMMARY_LIMIT]
      · rw [summarize_some_of_ne cs h]
        exact List.length_take_le _ _

/-- C3: for a non-empty list of surviving fragments, each already
truncated to at most 5,000 characters, whose newline-join has length at
most 20,000, `summarize` returns exactly
`f1 ++ "\n" ++ f2 ++ ... ++ "\n" ++ fn` in the original order. -/
theorem summarize_join_law (fs : List (List Char)) (hne : fs ≠ [])
    (hlen : ∀ f ∈ fs, f.length ≤ FRAGMENT_LIMIT)
    (hjoin : (joinNl fs).length ≤ SUMMARY_LIMIT) :
    summarize (some (fs.map some)) = joinNl fs := by
  have hsafe : safeChunks (fs.map some) = fs := safeChunks_map_some fs hlen
  rw [summarize_some_of_ne _ (by rw [hsafe]; exact hne), hsafe,
    intercalate_nl_eq_joinNl]
  exact List.take_of_length_le hjoin

/-- C3 witness at `fs = [['h','i'], ['y','o']]`. -/
theorem summarize_join_law_witness :
    ([['h','i'], ['y','o']] : List (List Char)) ≠ [] ∧
    summarize (some ([['h','i'], ['y','o']].map some)) =
      joinNl [['h','i'], ['y','o']] :=
  ⟨by decide,
    summarize_join_law [['h','i'], ['y','o']] (by decide) (by decide) (by decide)⟩

/-- C4: a non-null fragment with textual form `s` contributes exactly
`s.take 5000` at its position: its length is `min s.length 5000` and it
is a prefix of `s`; and `summarize (["a" * 6000])` is exactly 5,000
copies of `'a'`. -/
theorem summarize_truncation_law (pre post : List Fragment) (s : List Char) :
    (safeChunks (pre ++ some s :: post) =
        safeChunks pre ++ s.take FRAGMENT_LIMIT :: safeChunks post ∧
      (s.take FRAGMENT_LIMIT).length = min s.length FRAGMENT_LIMIT ∧
      ∃ rest, s.take FRAGMENT_LIMIT ++ rest = s) ∧
    summarize (some [some (List.replicate 6000 'a')]) =
      List.replicate 5000 'a' := by
  refine ⟨⟨?_, ?_, ⟨s.drop FRAGMENT_LIMIT, List.take_append_drop _ _⟩⟩, ?_⟩
  · rw [safeChunks_append]
    rfl
  · rw [List.length_take, Nat.min_comm]
  · show _ = List.replicate FRAGMENT_LIMIT 'a'
    exact summarize_single_replicate 6000 (by norm_num [FRAGMENT_LIMIT])

/-- C5: `summarize` of null, of the empty sequence, and of a sequence of
only null fragments is the empty string. -/
theorem summarize_empty_law :
    summarize none = [] ∧ summarize (some []) = [] ∧
      summarize (some [none, none]) = [] :=
  ⟨rfl, by decide, by decide⟩

/-- C9: only null fragments are skipped — every non-null fragment,
including the empty string, survives filtering; in particular
`summarize (["", ""])` is the single newline character, not the empty
string. -/
theorem summarize_keeps_empty_fragments :
    (∀ cs : List Fragment,
        (safeChunks cs).length = (cs.filter fun c => c.isSome).length) ∧
    summarize (some [some [], some []]) = ['\n'] :=
  ⟨safeChunks_length_filter, by decide⟩

/-- C10: the summary is always a prefix of the full newline-join of all
truncated non-null fragment texts; the final 20,000-character cap only
removes a suffix of that join. -/
theorem summarize_prefix_of_join (cs : List Fragment) :
    ∃ rest, summarize (some cs) ++ rest = joinNl (safeChunks cs) := by
  by_cases h : safeChunks cs = []
  · exact ⟨[], by simp [summarize_some_of_nil cs h, h, joinNl]⟩
  · refine ⟨(List.intercalate ['\n'] (safeChunks cs)).drop SUMMARY_LIMIT, ?_⟩
    rw [summarize_some_of_ne cs h, ← intercalate_nl_eq_joinNl]
    exact List.take_append_drop _ _

/-- C6: `generate_vectors` produces an ordered list of exactly `count`
vectors (the default `VECTOR_COUNT` being 50), where the vector at index
`i` has id `"vector_i"` and its `expected_output` equals the summarizer
applied to its `input`. -/
theorem generate_vectors_spec (draw : Nat → List Fragment) (count : Nat) :
    VECTOR_COUNT = 50 ∧
    (generate_vectors draw count).length = count ∧
    ∀ i, i < count →
      (generate_vectors draw count).getD i defaultVector =
        { id := "vector_" ++ toString i
          input := draw i
          expected_output := summarize (some (draw i)) } := by
  refine ⟨rfl, by simp [generate_vectors], ?_⟩
  intro i hi
  simp [generate_vectors, List.getD, List.getElem?_map, List.getElem?_range, hi]

/-- C6 witness at a concrete draw stream and `count = 2`, index 1. -/
theorem generate_vectors_spec_witness :
    (generate_vectors (fun _ => [some ['x']]) 2).getD 1 defaultVector =
      { id := "vector_1", input := [some ['x']],
        expected_output := summarize (some [some ['x']]) } := by
  have h := (generate_vectors_spec (fun _ => [some ['x']]) 2).2.2 1 (by decide)
  rw [h]
  rfl

/-- C8: `summarize` has no side effects — the effect-instrumented
embedding returns the same result as `summarize`, leaves the caller's
sequence unchanged, and performs no I/O. -/
theorem summarize_no_side_effects (chunks : Option (List Fragment)) :
    summarizeEff chunks = (summarize chunks, chunks, []) := by
  cases chunks with
  | none => rfl
  | some cs => by_cases h : safeChunks cs = [] <;> simp [summarizeEff, summarize, h]

end PythonReactML
